import Mathlib

/-
  Verification of the FreeHands audio feature-extraction core
  (app/src/main/cpp/mfcc_util.cpp, fft_util.cpp) against its
  natural-language specification.

  Modelling conventions:
  * C `float` values are modelled as real numbers (ℝ); float literals such
    as `1e-10f` become the exact rationals they denote up to float rounding
    (`1/10^10`).  Loop-unrolled sums in the scalar source paths are modelled
    as plain finite sums, which are equal in exact real arithmetic.
  * C `int` parameters are modelled as ℤ where a sign test in the source
    matters, ℕ where the source value is a loop-produced index.
  * A caller-supplied output buffer is modelled as a `List ℝ`; an operation
    that writes elements `[0, k)` of the buffer returns the written prefix
    appended to the untouched tail `buffer.drop k`.  An operation that
    returns early leaves the buffer unchanged.
  * A caller-supplied input pointer is modelled as a total function ℕ → ℝ
    (the C function may read any offset; reads the source performs out of
    the live object are modelled as reads of that total function).
-/

namespace FreeHands

/-! ## Mel scale conversions (mfcc_util.cpp, hz_to_mel / mel_to_hz) -/

/-- C source: `2595.0f * log10f(1.0f + hz / 700.0f)`. -/
noncomputable def hz_to_mel (hz : ℝ) : ℝ := 2595 * Real.logb 10 (1 + hz / 700)

/-- C source: `700.0f * (powf(10.0f, mel / 2595.0f) - 1.0f)`. -/
noncomputable def mel_to_hz (mel : ℝ) : ℝ := 700 * ((10 : ℝ) ^ (mel / 2595) - 1)

/-! ## Hamming window and power spectrum (mfcc_util.cpp) -/

/-- `apply_hamming_window(data, n)`: in-place `data[i] *= 0.54 - 0.46*cos(2*pi*i/(n-1))`
for `i` in `[0, n)`; entries at and beyond `n` are untouched. -/
noncomputable def apply_hamming_window (data : List ℝ) (n : ℤ) : List ℝ :=
  (List.range n.toNat).map
    (fun i => data.getD i 0 * (0.54 - 0.46 * Real.cos (2 * Real.pi * i / ((n : ℝ) - 1))))
  ++ data.drop n.toNat

/-- `power_spectrum(fft_real, fft_imag, power, n)`: guard `n <= 0` returns with the
buffer unchanged, else `power[i] = real[i]^2 + imag[i]^2 + 1e-10` for `i` in `[0, n)`. -/
noncomputable def power_spectrum (re im : ℕ → ℝ) (power : List ℝ) (n : ℤ) : List ℝ :=
  if n ≤ 0 then power
  else (List.range n.toNat).map (fun i => re i * re i + im i * im i + 1 / 10 ^ 10)
       ++ power.drop n.toNat

/-! ## Mel filter bank construction (mfcc_util.cpp, create_mel_filter_bank) -/

/-- `mel_points[i] = mel_min + i * (mel_max - mel_min) / (num_filters + 1)` with
`mel_min = hz_to_mel(0)`, `mel_max = hz_to_mel(sample_rate / 2)`. -/
noncomputable def mel_points (nf : ℕ) (sr : ℝ) (i : ℕ) : ℝ :=
  hz_to_mel 0 + i * (hz_to_mel (sr / 2) - hz_to_mel 0) / (nf + 1)

/-- `hz_points[i] = mel_to_hz(mel_points[i])`. -/
noncomputable def hz_points (nf : ℕ) (sr : ℝ) (i : ℕ) : ℝ :=
  mel_to_hz (mel_points nf sr i)

/-- C `static_cast<int>` on a float value: truncation toward zero. -/
noncomputable def truncZ (x : ℝ) : ℤ := if 0 ≤ x then ⌊x⌋ else ⌈x⌉

/-- `bin[i] = max(1, min(fft_size/2, (int)((fft_size + 1) * hz_points[i] / sample_rate)))`
(mfcc_util.cpp lines 93-97). -/
noncomputable def binIndex (nf : ℕ) (fs : ℤ) (sr : ℝ) (i : ℕ) : ℤ :=
  max 1 (min (fs / 2) (truncZ (((fs : ℝ) + 1) * hz_points nf sr i / sr)))

/-- One triangular filter row of length `len`, zero-initialised, with the rising
ramp written on `[left, center)` and the falling ramp on `[center, right)`
(the two loops of mfcc_util.cpp lines 105-113 write those disjoint index
ranges; every other entry keeps its initial value 0). -/
noncomputable def triRow (len : ℕ) (left center right : ℤ) : List ℝ :=
  (List.range len).map (fun (j : ℕ) =>
    if left ≤ (j : ℤ) ∧ (j : ℤ) < center then ((j : ℝ) - (left : ℝ)) / ((center : ℝ) - (left : ℝ))
    else if center ≤ (j : ℤ) ∧ (j : ℤ) < right then
      1 - ((j : ℝ) - (center : ℝ)) / ((right : ℝ) - (center : ℝ))
    else 0)

/-- `create_mel_filter_bank(num_filters, fft_size, sample_rate)`: `num_filters` rows,
each of length `fft_size/2 + 1`, row `i` the triangle on bins
`bin[i] ≤ bin[i+1] ≤ bin[i+2]`.  (For `fs ≥ 0`, `(fs/2 + 1).toNat = fs.toNat/2 + 1`.) -/
noncomputable def create_mel_filter_bank (nf : ℕ) (fs : ℤ) (sr : ℝ) : List (List ℝ) :=
  (List.range nf).map (fun i =>
    triRow (fs.toNat / 2 + 1) (binIndex nf fs sr i) (binIndex nf fs sr (i + 1))
      (binIndex nf fs sr (i + 2)))

/-! ## Mel filter bank application (mfcc_util.cpp, apply_mel_filter_bank) -/

/-- `apply_mel_filter_bank(power, fft_size, sample_rate, mel_energies, num_filters)`:
parameter guard (`fft_size <= 0 || num_filters <= 0`, null checks dropped since
buffers are modelled as total), then the consistency guard
`filter_bank.empty() || filter_bank[0].size() != fft_size`, then for each filter
`mel_energies[i] = log(sum_{j<fft_size} power[j]*filter[i][j] + 1e-10)`. -/
noncomputable def apply_mel_filter_bank (power : ℕ → ℝ) (fs : ℤ) (sr : ℝ)
    (mel_energies : List ℝ) (nf : ℤ) : List ℝ :=
  if fs ≤ 0 ∨ nf ≤ 0 then mel_energies
  else
    let fb := create_mel_filter_bank nf.toNat fs sr
    if fb = [] ∨ (fb.headD []).length ≠ fs.toNat then mel_energies
    else
      (List.range nf.toNat).map (fun i =>
        Real.log ((∑ j in Finset.range fs.toNat, power j * ((fb.getD i []).getD j 0))
          + 1 / 10 ^ 10))
      ++ mel_energies.drop nf.toNat

/-! ## DCT (mfcc_util.cpp, dct) -/

/-- `dct(input, output, n, m)` exactly as the source computes it: guard
`n <= 0 || m <= 0`, `scale = sqrt(2.0f/m)`, and for `k` in `[0, n)`
`output[k] = scale * k_scale(k) * sum_{i<m} input[i] * cos(pi*k*(2i+1)/(2m))`
with `k_scale(0) = 1/sqrt(2)` and `k_scale(k>0) = 1`. -/
noncomputable def dct (input : ℕ → ℝ) (output : List ℝ) (n m : ℤ) : List ℝ :=
  if n ≤ 0 ∨ m ≤ 0 then output
  else
    (List.range n.toNat).map (fun (k : ℕ) =>
      Real.sqrt (2 / (m : ℝ)) * (if k = 0 then 1 / Real.sqrt 2 else 1) *
      ∑ i in Finset.range m.toNat,
        input i * Real.cos (Real.pi * (k : ℝ) * (2 * (i : ℝ) + 1) / (2 * (m : ℝ))))
    ++ output.drop n.toNat

/-- The DCT-II exactly as the specification states it (spec section 4.5): `m` output
coefficients, `output[k] = sqrt(2/n) * weight(k) * sum_{i<n} input[i] *
cos(pi*k*(2i+1)/(2n))`, `weight(0) = 1/sqrt(2)`, `weight(k>0) = 1`. -/
noncomputable def dct_spec (input : ℕ → ℝ) (n m : ℤ) : List ℝ :=
  (List.range m.toNat).map (fun (k : ℕ) =>
    Real.sqrt (2 / (n : ℝ)) * (if k = 0 then 1 / Real.sqrt 2 else 1) *
    ∑ i in Finset.range n.toNat,
      input i * Real.cos (Real.pi * (k : ℝ) * (2 * (i : ℝ) + 1) / (2 * (n : ℝ))))

/-! ## FFT engine (fft_util.cpp) -/

/-- The inner `for (; j >= bit; bit >>= 1) j -= bit; j += bit;` of `bit_reverse`
(fft_util.cpp lines 28-32).  The `bit = 0` case (where the C loop would not
terminate) is unreachable for the states produced by `bit_reverse`. -/
def revCarry (j bit : ℕ) : ℕ :=
  if bit = 0 then j
  else if bit ≤ j then revCarry (j - bit) (bit / 2)
  else j + bit
termination_by bit
decreasing_by omega

/-- One C-style swap `tmp = x[a]; x[a] = x[b]; x[b] = tmp;`. -/
def swapIdx (x : List ℝ) (a b : ℕ) : List ℝ :=
  (x.set a (x.getD b 0)).set b (x.getD a 0)

/-- The loop of `bit_reverse(x, n)` (fft_util.cpp lines 27-42): for `i` from 1 to
`n-1`, update `j`, and when `i < j` swap `x[i]` with `x[j]` and then `x[i+1]`
with `x[j+1]` (raw float positions, not complex pairs). -/
def bit_reverse_go (n : ℕ) (x : List ℝ) (i j : ℕ) : List ℝ :=
  if i < n then
    let j2 := revCarry j (n / 2)
    bit_reverse_go n (if i < j2 then swapIdx (swapIdx x i j2) (i + 1) (j2 + 1) else x) (i + 1) j2
  else x
termination_by n - i

/-- `bit_reverse(x, n)`. -/
def bit_reverse (x : List ℝ) (n : ℕ) : List ℝ := bit_reverse_go n x 1 0

/-- One scalar butterfly (fft_util.cpp lines 162-174): `t = w * x[idx2]`,
`x[idx1] = u + t`, `x[idx2] = u - t` on interleaved (real, imag) slots. -/
noncomputable def butterfly (x : List ℝ) (idx1 idx2 : ℕ) (wr wi : ℝ) : List ℝ :=
  let tr := wr * x.getD idx2 0 - wi * x.getD (idx2 + 1) 0
  let ti := wr * x.getD (idx2 + 1) 0 + wi * x.getD idx2 0
  let ur := x.getD idx1 0
  let ui := x.getD (idx1 + 1) 0
  (((x.set idx1 (ur + tr)).set (idx1 + 1) (ui + ti)).set idx2 (ur - tr)).set (idx2 + 1) (ui - ti)

/-- Inner butterfly loop over `j` in `[0, half_len)` with twiddle
`(cos(j*theta), sin(j*theta))`, `idx1 = 2*(i+j)`, `idx2 = 2*(i+j+half_len)`. -/
noncomputable def fft_jloop (theta : ℝ) (i halfLen : ℕ) (x : List ℝ) (j : ℕ) : List ℝ :=
  if j < halfLen then
    fft_jloop theta i halfLen
      (butterfly x (2 * (i + j)) (2 * (i + j + halfLen))
        (Real.cos (j * theta)) (Real.sin (j * theta))) (j + 1)
  else x
termination_by halfLen - j

/-- Block loop over `i = 0, len, 2*len, ...` while `i < n`.  The `0 < len` guard
is only for termination; every call site has `len ≥ 2`. -/
noncomputable def fft_iloop (n len : ℕ) (theta : ℝ) (x : List ℝ) (i : ℕ) : List ℝ :=
  if h : 0 < len ∧ i < n then fft_iloop n len theta (fft_jloop theta i (len / 2) x 0) (i + len)
  else x
termination_by n - i
decreasing_by omega

/-- Stage loop `for (len = 2; len <= n; len <<= 1)` with `theta = -2*pi/len`. -/
noncomputable def fft_stages (n : ℕ) (x : List ℝ) (len : ℕ) : List ℝ :=
  if h : 2 ≤ len ∧ len ≤ n then
    fft_stages n (fft_iloop n len (-(2 * Real.pi) / (len : ℝ)) x 0) (2 * len)
  else x
termination_by n + 1 - len
decreasing_by omega

/-- The size guard of `fft` / `ifft`: `n <= 0 || (n & (n - 1)) != 0` fails, so the
call proceeds iff `0 < n` and `n & (n-1) == 0`. -/
def fftGuardOk (n : ℤ) : Bool := decide (0 < n) && (n.toNat &&& (n.toNat - 1) == 0)

/-- Body of `fft` after the guard: copy `input[2i]` into the even slots and zero
every odd (imaginary) slot (fft_util.cpp lines 88-91), bit-reverse, then run the
butterfly stages. -/
noncomputable def fftRun (input : ℕ → ℝ) (n : ℕ) : List ℝ :=
  fft_stages n
    (bit_reverse ((List.range (2 * n)).map (fun j => if j % 2 = 0 then input j else 0)) n) 2

/-- `fft(input, output, n)`: on guard failure the output buffer is untouched;
otherwise exactly the `2n` slots `[0, 2n)` of the output buffer are written. -/
noncomputable def fft (input : ℕ → ℝ) (output : List ℝ) (n : ℤ) : List ℝ :=
  if fftGuardOk n then fftRun input n.toNat ++ output.drop (2 * n.toNat) else output

/-- `ifft(input, output, n)` (fft_util.cpp lines 199-245): guard, copy with negated
imaginary parts, in-place forward `fft(output, output, n)`, then scale by `1/n`
negating imaginary parts again. -/
noncomputable def ifft (input : ℕ → ℝ) (output : List ℝ) (n : ℤ) : List ℝ :=
  if fftGuardOk n then
    let m := n.toNat
    let conj := (List.range (2 * m)).map (fun i => if i % 2 = 0 then input i else -input i)
    let buf := conj ++ output.drop (2 * m)
    let y := fft (fun i => buf.getD i 0) buf n
    ((List.range (2 * m)).map (fun i =>
      if i % 2 = 0 then y.getD i 0 * (1 / (m : ℝ)) else -y.getD i 0 * (1 / (m : ℝ))))
    ++ y.drop (2 * m)
  else output

/-- The discrete Fourier transform as the specification states it (spec section
4.2): output slot `2k` carries `Re X_k`, slot `2k+1` carries `Im X_k`, where
`X_k = sum_j (input[2j] + i*input[2j+1]) * exp(-2*pi*i*j*k/n)`, unscaled. -/
noncomputable def dft_spec (input : ℕ → ℝ) (n : ℕ) : List ℝ :=
  (List.range (2 * n)).map (fun (idx : ℕ) =>
    if idx % 2 = 0 then
      ∑ j in Finset.range n,
        (input (2 * j) * Real.cos (-(2 * Real.pi) * (j : ℝ) * ((idx / 2 : ℕ) : ℝ) / (n : ℝ))
          - input (2 * j + 1) * Real.sin (-(2 * Real.pi) * (j : ℝ) * ((idx / 2 : ℕ) : ℝ) / (n : ℝ)))
    else
      ∑ j in Finset.range n,
        (input (2 * j) * Real.sin (-(2 * Real.pi) * (j : ℝ) * ((idx / 2 : ℕ) : ℝ) / (n : ℝ))
          + input (2 * j + 1) * Real.cos (-(2 * Real.pi) * (j : ℝ) * ((idx / 2 : ℕ) : ℝ) / (n : ℝ))))

/-! ## MFCC pipeline (mfcc_util.cpp, compute_mfcc) -/

/-- The frame-copy stage of `compute_mfcc`:
`std::copy(audio_data, audio_data + frame_size, windowed.begin())` with the fixed
`frame_size = 1024` — it reads `audio[0..1024)` unconditionally. -/
noncomputable def mfccFrame (audio : ℕ → ℝ) : List ℝ := (List.range 1024).map audio

/-- `compute_mfcc(audio, num_samples, sample_rate, mfcc, num_mfcc, num_filters)`:
frame copy (first 1024 samples, no check against `num_samples`, which the body
never reads), Hamming window, `fft` of size 1024 into a 1024-float buffer (the
source's out-of-bounds writes past that buffer are modelled by the returned
list simply being longer), power spectrum over 513 bins, Mel filter bank, DCT. -/
noncomputable def compute_mfcc (audio : ℕ → ℝ) (num_samples : ℤ) (sample_rate : ℤ)
    (num_mfcc num_filters : ℤ) : List ℝ :=
  let frame_size : ℤ := 1024
  let windowed := apply_hamming_window (mfccFrame audio) frame_size
  let fft_real := fft (fun i => windowed.getD i 0) (List.replicate 1024 0) frame_size
  let fft_imag : List ℝ := List.replicate 1024 0
  let power := power_spectrum (fun i => fft_real.getD i 0) (fun i => fft_imag.getD i 0)
    (List.replicate 513 0) (frame_size / 2 + 1)
  let mel := apply_mel_filter_bank (fun i => power.getD i 0) frame_size (sample_rate : ℝ)
    (List.replicate num_filters.toNat 0) num_filters
  dct (fun i => mel.getD i 0) (List.replicate num_mfcc.toNat 0) num_filters num_mfcc

/-- The bin mapping as the specification states it (spec section 4.4):
`bin[i] = round((fftSize+1)*hz[i]/sampleRate)` clamped into `[1, fftSize/2]`. -/
noncomputable def binIndex_spec (nf : ℕ) (fs : ℤ) (sr : ℝ) (i : ℕ) : ℤ :=
  max 1 (min (fs / 2) (round (((fs : ℝ) + 1) * hz_points nf sr i / sr)))

/-! ## Helper lemmas -/

/-- The Mel value of 0 Hz is 0. -/
lemma hz_to_mel_zero : hz_to_mel 0 = 0 := by
  unfold hz_to_mel
  norm_num [Real.logb_one]

/-- Mel values of nonnegative frequencies are nonnegative. -/
lemma hz_to_mel_nonneg (f : ℝ) (hf : 0 ≤ f) : 0 ≤ hz_to_mel f := by
  unfold hz_to_mel
  have h1 : (1 : ℝ) ≤ 1 + f / 700 := by
    have := div_nonneg hf (by norm_num : (0:ℝ) ≤ 700)
    linarith
  exact mul_nonneg (by norm_num) (Real.logb_nonneg (by norm_num : (1:ℝ) < 10) h1)

/-- The interpolated Mel points are nonnegative for nonnegative sample rates. -/
lemma mel_points_nonneg (nf : ℕ) (sr : ℝ) (i : ℕ) (hsr : 0 ≤ sr) :
    0 ≤ mel_points nf sr i := by
  unfold mel_points
  rw [hz_to_mel_zero, sub_zero, zero_add]
  have h1 : 0 ≤ hz_to_mel (sr / 2) := hz_to_mel_nonneg _ (by positivity)
  exact div_nonneg (mul_nonneg (Nat.cast_nonneg i) h1) (by positivity)

/-- The Hz points of the filter bank are nonnegative for nonnegative sample rates. -/
lemma hz_points_nonneg (nf : ℕ) (sr : ℝ) (i : ℕ) (hsr : 0 ≤ sr) :
    0 ≤ hz_points nf sr i := by
  unfold hz_points mel_to_hz
  have h1 : (1 : ℝ) ≤ (10 : ℝ) ^ (mel_points nf sr i / 2595) :=
    Real.one_le_rpow (by norm_num) (div_nonneg (mel_points_nonneg nf sr i hsr) (by norm_num))
  linarith

/-- At `numFilters = 1`, `sampleRate = 4200`, the interior Hz point is exactly
`700·(√4 − 1) = 700`, because the interior Mel point is half of
`2595·log10(1 + 2100/700) = 2595·log10 4`. -/
lemma hz_points_one_4200 : hz_points 1 4200 1 = 700 := by
  unfold hz_points mel_points
  rw [hz_to_mel_zero, sub_zero, zero_add]
  unfold hz_to_mel mel_to_hz
  have h1 : (1 : ℝ) + 4200 / 2 / 700 = 4 := by norm_num
  rw [h1]
  have h2 : (1 : ℕ) * (2595 * Real.logb 10 4) / ((1 : ℕ) + 1) / 2595
      = Real.logb 10 4 * (2 : ℝ)⁻¹ := by
    push_cast
    ring
  rw [h2, Real.rpow_mul (by norm_num : (0:ℝ) ≤ 10),
    Real.rpow_logb (by norm_num) (by norm_num) (by norm_num),
    show (4:ℝ) = 2 ^ (2:ℕ) by norm_num, ← Real.rpow_natCast 2 2,
    ← Real.rpow_mul (by norm_num : (0:ℝ) ≤ 2)]
  norm_num

/-! ## Claim C9 -/

/-- Claim C9: for every `f ≥ 0`, `melToHz (hzToMel f) = f`.  In the exact real
semantics the two Mel conversions are exact inverses, which implies the claimed
`1e-3` relative tolerance. -/
theorem mel_roundtrip (f : ℝ) (hf : 0 ≤ f) : mel_to_hz (hz_to_mel f) = f := by
  unfold mel_to_hz hz_to_mel
  have h1 : (0:ℝ) < 1 + f / 700 := by positivity
  have h2 : 2595 * Real.logb 10 (1 + f / 700) / 2595 = Real.logb 10 (1 + f / 700) := by
    ring
  rw [h2, Real.rpow_logb (by norm_num) (by norm_num) h1]
  ring

/-- Witness for C9 at the concrete frequency `f = 700`. -/
theorem mel_roundtrip_witness : (0:ℝ) ≤ 700 ∧ mel_to_hz (hz_to_mel 700) = 700 :=
  ⟨by norm_num, mel_roundtrip 700 (by norm_num)⟩

/-! ## Claim C8 -/

/-- Claim C8, corrected: the bin index is the clamp of the value TRUNCATED toward
zero — equal to its floor, since the value is nonnegative whenever the sample
rate is positive and `fftSize ≥ 0` — not of its rounding. -/
theorem bin_index_is_floor (nf : ℕ) (fs : ℤ) (sr : ℝ) (i : ℕ) (hsr : 0 < sr) (hfs : 0 ≤ fs) :
    binIndex nf fs sr i = max 1 (min (fs / 2) ⌊((fs : ℝ) + 1) * hz_points nf sr i / sr⌋) := by
  unfold binIndex truncZ
  have h0 : (0:ℝ) ≤ ((fs : ℝ) + 1) * hz_points nf sr i / sr :=
    div_nonneg
      (mul_nonneg (by exact_mod_cast Int.add_nonneg hfs one_pos.le)
        (hz_points_nonneg nf sr i hsr.le))
      hsr.le
  rw [if_pos h0]

/-- Witness for the corrected C8 at `numFilters = 1`, `fftSize = 9`,
`sampleRate = 4200`, `i = 1`. -/
theorem bin_index_is_floor_witness :
    ((0:ℝ) < 4200 ∧ (0:ℤ) ≤ 9) ∧
    binIndex 1 9 4200 1 = max 1 (min ((9:ℤ) / 2) ⌊((9 : ℝ) + 1) * hz_points 1 4200 1 / 4200⌋) :=
  ⟨⟨by norm_num, by norm_num⟩, by
    have h := bin_index_is_floor 1 9 4200 1 (by norm_num) (by norm_num)
    exact_mod_cast h⟩

/-- Counterexample to claim C8 as stated: at `numFilters = 1`, `fftSize = 9`,
`sampleRate = 4200`, `i = 1` the scaled frequency is exactly `5/3`; the code's
truncation gives bin 1 while the claimed rounding gives bin 2. -/
theorem bin_index_round_counterexample :
    binIndex 1 9 4200 1 = 1 ∧ binIndex_spec 1 9 4200 1 = 2 := by
  have hv : (((9 : ℤ) : ℝ) + 1) * hz_points 1 4200 1 / 4200 = 5 / 3 := by
    rw [hz_points_one_4200]
    norm_num
  constructor
  · unfold binIndex truncZ
    rw [hv, if_pos (by norm_num : (0:ℝ) ≤ 5/3)]
    norm_num [Int.floor_eq_iff]
  · unfold binIndex_spec
    rw [hv, round_eq]
    norm_num [Int.floor_eq_iff]

/-- Every triangular filter row has the length it was allocated with. -/
lemma triRow_length (len : ℕ) (l c r : ℤ) : (triRow len l c r).length = len := by
  unfold triRow
  rw [List.length_map, List.length_range]

/-- The first row of a nonempty filter bank has length `fftSize/2 + 1`. -/
lemma create_head_length (nf : ℕ) (hnf : 0 < nf) (fs : ℤ) (sr : ℝ) :
    ((create_mel_filter_bank nf fs sr).headD []).length = fs.toNat / 2 + 1 := by
  obtain ⟨k, rfl⟩ : ∃ k, nf = k + 1 := ⟨nf - 1, by omega⟩
  unfold create_mel_filter_bank
  rw [List.range_succ_eq_map, List.map_cons, List.headD_cons, triRow_length]

/-- For every `fftSize > 2` the consistency guard of `apply_mel_filter_bank`
trips (the row length `fftSize/2 + 1` differs from `fftSize`) and the
mel-energies buffer is returned unchanged. -/
lemma apply_mel_early (fs : ℤ) (hfs : 2 < fs) (power : ℕ → ℝ) (sr : ℝ)
    (me : List ℝ) (nf : ℤ) : apply_mel_filter_bank power fs sr me nf = me := by
  unfold apply_mel_filter_bank
  rcases le_or_lt nf 0 with h | h
  · rw [if_pos (Or.inr h)]
  · rw [if_neg (by push_neg; omega)]
    rw [if_pos]
    right
    rw [create_head_length nf.toNat (by omega) fs sr]
    omega

/-! ## Claim C1 -/

/-- Claim C1 (code bug): at the pipeline's own parameters
(`fftSize = 1024`, `sampleRate = 16000`, `numFilters = 26`) the function does
NOT write the log Mel energies — the broken consistency guard makes it return
with the output buffer untouched, for every power spectrum and every initial
buffer contents. -/
theorem apply_mel_filter_bank_pipeline_noop (power : ℕ → ℝ) (me : List ℝ) :
    apply_mel_filter_bank power 1024 16000 me 26 = me :=
  apply_mel_early 1024 (by norm_num) power 16000 me 26

/-! ## Claim C2 -/

/-- Claim C2, corrected: for every `fftSize > 2` the guard comparison
`fftSize/2 + 1 ≠ fftSize` holds and `apply_mel_filter_bank` leaves the
mel-energies buffer unchanged.  (The original claim's parenthetical "for every
fftSize other than 2" is refuted by `apply_mel_filter_bank_writes_at_one`:
the comparison also succeeds at `fftSize = 1`.) -/
theorem apply_mel_filter_bank_early_return (fs : ℤ) (hfs : 2 < fs) :
    fs / 2 + 1 ≠ fs ∧
    ∀ (power : ℕ → ℝ) (sr : ℝ) (me : List ℝ) (nf : ℤ),
      apply_mel_filter_bank power fs sr me nf = me :=
  ⟨by omega, fun power sr me nf => apply_mel_early fs hfs power sr me nf⟩

/-- Witness for the corrected C2 at the pipeline's `fftSize = 1024`. -/
theorem apply_mel_filter_bank_early_return_witness :
    (2:ℤ) < 1024 ∧
    ((1024:ℤ) / 2 + 1 ≠ 1024 ∧
      ∀ (power : ℕ → ℝ) (sr : ℝ) (me : List ℝ) (nf : ℤ),
        apply_mel_filter_bank power 1024 sr me nf = me) :=
  ⟨by norm_num, apply_mel_filter_bank_early_return 1024 (by norm_num)⟩

/-- Every bin index collapses to 1 when `fftSize = 1`, because the clamp is
`max(1, min(0, ·))`. -/
lemma binIndex_fs_one (sr : ℝ) (i : ℕ) : binIndex 1 1 sr i = 1 := by
  unfold binIndex
  exact max_eq_left (le_trans (min_le_left _ _) (by norm_num))

/-- Counterexample to claim C2's parenthetical "the comparison fails for every
fftSize other than 2": at `fftSize = 1` the row length `1/2 + 1 = 1` EQUALS
`fftSize`, the guard does not trip, and the function writes
`log(0 + 1e-10) ≠ 0` into the buffer instead of returning it unchanged. -/
theorem apply_mel_filter_bank_writes_at_one :
    (1:ℤ) ≠ 2 ∧ (1:ℤ) / 2 + 1 = 1 ∧
    apply_mel_filter_bank (fun _ => 0) 1 1 [0] 1 ≠ [0] := by
  refine ⟨by norm_num, by norm_num, ?_⟩
  have hr1 : List.range 1 = [0] := rfl
  have hrow : triRow 1 1 1 1 = [0] := by
    unfold triRow
    rw [hr1, List.map_cons, List.map_nil]
    norm_num
  have hfb : create_mel_filter_bank (1:ℤ).toNat 1 1 = [[0]] := by
    unfold create_mel_filter_bank
    rw [show (1:ℤ).toNat = 1 by norm_num, hr1, List.map_cons, List.map_nil]
    rw [binIndex_fs_one, binIndex_fs_one, binIndex_fs_one]
    norm_num [hrow]
  unfold apply_mel_filter_bank
  rw [if_neg (by push_neg; omega)]
  simp only [hfb]
  rw [if_neg (by norm_num)]
  have hlog : Real.log ((0:ℝ) + 1 / 10 ^ 10) < 0 := by
    rw [zero_add]
    exact Real.log_neg (by norm_num) (by norm_num)
  simp [Finset.sum_range_succ]
  intro hc
  rw [hc] at hlog
  norm_num at hlog

/-! ## Claim C3 -/

/-- Claim C3 (code bug): `dct` swaps the roles of `n` and `m`.  At
`n = 2`, `m = 1`, input constantly 1 and output buffer `[0, 5]`, the code
produces TWO coefficients `[1, 0]` — clobbering `output[1]` — where the
specified DCT-II produces exactly `m = 1` coefficient, `[sqrt 2]`, and
leaves `output[1] = 5` untouched. -/
theorem dct_swaps_n_m :
    dct (fun _ => 1) [0, 5] 2 1 = [1, 0] ∧ dct_spec (fun _ => 1) 2 1 = [Real.sqrt 2] := by
  constructor
  · unfold dct
    rw [if_neg (by norm_num)]
    rw [show ((2:ℤ)).toNat = 2 from rfl, show List.range 2 = [0, 1] from rfl,
      List.map_cons, List.map_cons, List.map_nil]
    have ha0 : Real.pi * ((0:ℕ) : ℝ) * (2 * ((0:ℕ) : ℝ) + 1) / (2 * ((1:ℤ) : ℝ)) = 0 := by
      push_cast; ring
    have ha1 : Real.pi * ((1:ℕ) : ℝ) * (2 * ((0:ℕ) : ℝ) + 1) / (2 * ((1:ℤ) : ℝ))
        = Real.pi / 2 := by
      push_cast; ring
    norm_num [Finset.sum_range_succ, ha0, ha1, Real.cos_pi_div_two]
  · unfold dct_spec
    rw [show ((1:ℤ)).toNat = 1 from rfl, show List.range 1 = [0] from rfl,
      List.map_cons, List.map_nil]
    have ha0 : ∀ i : ℕ, Real.pi * ((0:ℕ) : ℝ) * (2 * (i : ℝ) + 1) / (2 * ((2:ℤ) : ℝ)) = 0 := by
      intro i; push_cast; ring
    norm_num [Finset.sum_range_succ, ha0]
    rw [show (((2:ℤ).toNat : ℕ) : ℝ) = 2 from by simp]
    have h2 : Real.sqrt 2 ≠ 0 := Real.sqrt_ne_zero'.mpr (by norm_num)
    field_simp

/-- The classic bit trick: for positive `m`, `m & (m-1) == 0` iff `m` is a power
of two. -/
lemma pow2_iff (m : ℕ) (hm : 0 < m) : m &&& (m - 1) = 0 ↔ ∃ k : ℕ, m = 2 ^ k := by
  induction m using Nat.strong_induction_on with
  | _ m ih =>
    rcases Nat.even_or_odd m with ⟨c, hc⟩ | ⟨c, hc⟩
    · have hc2 : m = 2 * c := by omega
      have hcpos : 0 < c := by omega
      have hm1 : m - 1 = 2 * (c - 1) + 1 := by omega
      have hland : m &&& (m - 1) = 2 * (c &&& (c - 1)) := by
        rw [hm1, hc2]
        have h := Nat.land_bit false c true (c - 1)
        simpa [Nat.bit_val] using h
      constructor
      · intro h
        have h0 : c &&& (c - 1) = 0 := by omega
        obtain ⟨k, hk⟩ := (ih c (by omega) hcpos).mp h0
        exact ⟨k + 1, by rw [hc2, hk]; ring⟩
      · rintro ⟨k, hk⟩
        rcases k with _ | k2
        · rw [pow_zero] at hk; omega
        · have hck : c = 2 ^ k2 := by
            have ht : m = 2 * 2 ^ k2 := by rw [hk, pow_succ]; ring
            omega
          have := (ih c (by omega) hcpos).mpr ⟨k2, hck⟩
          omega
    · have hm1 : m - 1 = 2 * c := by omega
      have hland : m &&& (m - 1) = 2 * c := by
        rw [hm1, hc]
        have hself : c &&& c = c :=
          Nat.eq_of_testBit_eq (fun i => by rw [Nat.testBit_land]; exact Bool.and_self _)
        have h := Nat.land_bit true c false c
        simpa [Nat.bit_val, hself] using h
      constructor
      · intro h
        exact ⟨0, by omega⟩
      · rintro ⟨k, hk⟩
        rcases k with _ | k2
        · rw [pow_zero] at hk
          rw [hland]; omega
        · exfalso
          have ht : m = 2 * 2 ^ k2 := by rw [hk, pow_succ]; ring
          have h1 : 0 < 2 ^ k2 := by positivity
          omega

/-- The source's guard `n <= 0 || (n & (n-1)) != 0` passes exactly on the
positive powers of two. -/
lemma fftGuardOk_iff (n : ℤ) : fftGuardOk n = true ↔ (0 < n ∧ ∃ k : ℕ, n = 2 ^ k) := by
  unfold fftGuardOk
  rw [Bool.and_eq_true, decide_eq_true_iff, beq_iff_eq]
  constructor
  · rintro ⟨hn, hl⟩
    refine ⟨hn, ?_⟩
    obtain ⟨k, hk⟩ := (pow2_iff n.toNat (by omega)).mp hl
    exact ⟨k, by rw [← Int.toNat_of_nonneg hn.le, hk]; push_cast; ring⟩
  · rintro ⟨hn, k, hk⟩
    refine ⟨hn, ?_⟩
    apply (pow2_iff n.toNat (by omega)).mpr
    refine ⟨k, ?_⟩
    have h2 : ((2:ℤ) ^ k) = ((2 ^ k : ℕ) : ℤ) := by push_cast; ring
    rw [hk, h2, Int.toNat_natCast]

/-! ## Claim C7 -/

/-- Claim C7: for every `n` that is not a positive power of two, both `fft` and
`ifft` take the guard's early return and leave the output buffer entirely
unchanged. -/
theorem fft_ifft_invalid_size (n : ℤ) (input : ℕ → ℝ) (output : List ℝ)
    (h : ¬(0 < n ∧ ∃ k : ℕ, n = 2 ^ k)) :
    fft input output n = output ∧ ifft input output n = output := by
  have hg : fftGuardOk n = false := by
    rcases hb : fftGuardOk n with _ | _
    · rfl
    · exact absurd ((fftGuardOk_iff n).mp hb) h
  constructor
  · unfold fft
    rw [hg]
    rfl
  · unfold ifft
    rw [hg]
    rfl

/-- Witness for C7 at the non-power-of-two size `n = 3`. -/
theorem fft_ifft_invalid_size_witness :
    ¬((0:ℤ) < 3 ∧ ∃ k : ℕ, (3:ℤ) = 2 ^ k) ∧
    (fft (fun _ => 1) [5, 6] 3 = [5, 6] ∧ ifft (fun _ => 1) [5, 6] 3 = [5, 6]) := by
  have hnot : ¬((0:ℤ) < 3 ∧ ∃ k : ℕ, (3:ℤ) = 2 ^ k) := by
    rintro ⟨-, k, hk⟩
    rcases k with _ | k2
    · norm_num at hk
    · rw [pow_succ] at hk
      have h1 : (0:ℤ) < 2 ^ k2 := by positivity
      omega
  exact ⟨hnot, fft_ifft_invalid_size 3 (fun _ => 1) [5, 6] hnot⟩

/-! ## Claim C10 -/

/-- Claim C10: for every valid power-of-two size, the output of `fft` depends
only on the even-indexed entries of the input buffer — the copy loop zeroes
every imaginary slot, discarding all odd-indexed values. -/
theorem fft_ignores_odd_input (n : ℤ) (input1 input2 : ℕ → ℝ) (output : List ℝ)
    (hn : 0 < n) (hpow : ∃ k : ℕ, n = 2 ^ k)
    (heven : ∀ i : ℕ, i < n.toNat → input1 (2 * i) = input2 (2 * i)) :
    fft input1 output n = fft input2 output n := by
  unfold fft
  rcases hg : fftGuardOk n with _ | _
  · rfl
  · have hcopy : (List.range (2 * n.toNat)).map (fun j => if j % 2 = 0 then input1 j else 0)
        = (List.range (2 * n.toNat)).map (fun j => if j % 2 = 0 then input2 j else 0) := by
      apply List.map_congr_left
      intro j hj
      rw [List.mem_range] at hj
      by_cases hpar : j % 2 = 0
      · obtain ⟨i, rfl⟩ : ∃ i, j = 2 * i := ⟨j / 2, by omega⟩
        simp only [hpar, if_pos]
        exact heven i (by omega)
      · simp [hpar]
    unfold fftRun
    rw [hcopy]

/-- Witness for C10 at `n = 2` with two inputs agreeing on the even slots. -/
theorem fft_ignores_odd_input_witness :
    (((0:ℤ) < 2 ∧ ∃ k : ℕ, (2:ℤ) = 2 ^ k) ∧
      ∀ i : ℕ, i < (2:ℤ).toNat →
        (fun _ => (0:ℝ)) (2 * i) = (fun j => if j % 2 = 0 then (0:ℝ) else 7) (2 * i)) ∧
    fft (fun _ => 0) [0, 0, 0, 0] 2 = fft (fun j => if j % 2 = 0 then 0 else 7) [0, 0, 0, 0] 2 := by
  have heven : ∀ i : ℕ, i < (2:ℤ).toNat →
      (fun _ => (0:ℝ)) (2 * i) = (fun j => if j % 2 = 0 then (0:ℝ) else 7) (2 * i) := by
    intro i hi
    simp [Nat.mul_mod_right]
  exact ⟨⟨⟨by norm_num, 1, by norm_num⟩, heven⟩,
    fft_ignores_odd_input 2 _ _ _ (by norm_num) ⟨1, by norm_num⟩ heven⟩

/-! ## Concrete FFT evaluations for claims C4 and C5 -/

lemma cos_quarter : Real.cos (-(2 * Real.pi) / 4) = 0 := by
  rw [show -(2 * Real.pi) / 4 = -(Real.pi / 2) by ring, Real.cos_neg, Real.cos_pi_div_two]

lemma sin_quarter : Real.sin (-(2 * Real.pi) / 4) = -1 := by
  rw [show -(2 * Real.pi) / 4 = -(Real.pi / 2) by ring, Real.sin_neg, Real.sin_pi_div_two]

lemma cos_half : Real.cos (-(2 * Real.pi * 2) / 4) = -1 := by
  rw [show -(2 * Real.pi * 2) / 4 = -Real.pi by ring, Real.cos_neg, Real.cos_pi]

lemma sin_half : Real.sin (-(2 * Real.pi * 2) / 4) = 0 := by
  rw [show -(2 * Real.pi * 2) / 4 = -Real.pi by ring, Real.sin_neg, Real.sin_pi]
  ring

lemma cos_three_quarter : Real.cos (-(2 * Real.pi * 3) / 4) = 0 := by
  rw [show -(2 * Real.pi * 3) / 4 = -(Real.pi + Real.pi / 2) by ring, Real.cos_neg, Real.cos_add,
    Real.cos_pi_div_two, Real.sin_pi, Real.cos_pi, Real.sin_pi_div_two]
  ring

lemma sin_three_quarter : Real.sin (-(2 * Real.pi * 3) / 4) = 1 := by
  rw [show -(2 * Real.pi * 3) / 4 = -(Real.pi + Real.pi / 2) by ring, Real.sin_neg, Real.sin_add,
    Real.cos_pi_div_two, Real.sin_pi, Real.cos_pi, Real.sin_pi_div_two]
  ring

lemma copy4_eval : (List.range (2 * 4)).map
    (fun j => if j % 2 = 0 then ((fun i => if i = 2 then (1:ℝ) else 0) j) else 0)
    = [0, 0, 1, 0, 0, 0, 0, 0] := by
  rw [show List.range (2 * 4) = [0, 1, 2, 3, 4, 5, 6, 7] from rfl]
  norm_num

lemma bitrev4_eval : bit_reverse ([0, 0, 1, 0, 0, 0, 0, 0] : List ℝ) 4
    = [0, 1, 0, 0, 0, 0, 0, 0] := by
  unfold bit_reverse
  simp [bit_reverse_go, revCarry, swapIdx]

lemma stages4_eval : fft_stages 4 ([0, 1, 0, 0, 0, 0, 0, 0] : List ℝ) 2
    = [0, 1, 0, 1, 0, 1, 0, 1] := by
  simp [fft_stages, fft_iloop, fft_jloop, butterfly, cos_quarter, sin_quarter]

lemma fft4_eval : fft (fun i => if i = 2 then (1:ℝ) else 0) (List.replicate 8 0) 4
    = [0, 1, 0, 1, 0, 1, 0, 1] := by
  unfold fft
  rw [show fftGuardOk 4 = true from rfl, if_pos rfl, show (4:ℤ).toNat = 4 from rfl]
  unfold fftRun
  rw [copy4_eval, bitrev4_eval, stages4_eval]
  rfl

lemma dft4_eval : dft_spec (fun i => if i = 2 then (1:ℝ) else 0) 4
    = [1, 0, 0, -1, -1, 0, 0, 1] := by
  unfold dft_spec
  rw [show List.range (2 * 4) = [0, 1, 2, 3, 4, 5, 6, 7] from rfl]
  norm_num [Finset.sum_range_succ, cos_quarter, sin_quarter, cos_half, sin_half,
    cos_three_quarter, sin_three_quarter]

lemma copy2_eval : (List.range (2 * 2)).map
    (fun j => if j % 2 = 0 then (([0, 1, 0, 0] : List ℝ).getD j 0) else 0) = [0, 0, 0, 0] := by
  rw [show List.range (2 * 2) = [0, 1, 2, 3] from rfl]
  norm_num [List.getD]

lemma copy2_zero_eval : (List.range (2 * 2)).map
    (fun j => if j % 2 = 0 then (([0, 0, 0, 0] : List ℝ).getD j 0) else 0) = [0, 0, 0, 0] := by
  rw [show List.range (2 * 2) = [0, 1, 2, 3] from rfl]
  norm_num [List.getD]

lemma bitrev2_eval : bit_reverse ([0, 0, 0, 0] : List ℝ) 2 = [0, 0, 0, 0] := by
  unfold bit_reverse
  simp [bit_reverse_go, revCarry, swapIdx]

lemma stages2_eval : fft_stages 2 ([0, 0, 0, 0] : List ℝ) 2 = [0, 0, 0, 0] := by
  simp [fft_stages, fft_iloop, fft_jloop, butterfly, List.getD]

lemma fft2_eval : fft (fun j => ([0, 1, 0, 0] : List ℝ).getD j 0) [0, 0, 0, 0] 2
    = [0, 0, 0, 0] := by
  unfold fft
  rw [show fftGuardOk 2 = true from rfl, if_pos rfl, show (2:ℤ).toNat = 2 from rfl]
  unfold fftRun
  rw [copy2_eval, bitrev2_eval, stages2_eval]
  rfl

lemma fft2_zero_eval : fft (fun j => ([0, 0, 0, 0] : List ℝ).getD j 0) [0, 0, 0, 0] 2
    = [0, 0, 0, 0] := by
  unfold fft
  rw [show fftGuardOk 2 = true from rfl, if_pos rfl, show (2:ℤ).toNat = 2 from rfl]
  unfold fftRun
  rw [copy2_zero_eval, bitrev2_eval, stages2_eval]
  rfl

lemma ifft2_zero_eval : ifft (fun i => ([0, 0, 0, 0] : List ℝ).getD i 0) [0, 0, 0, 0] 2
    = [0, 0, 0, 0] := by
  unfold ifft
  rw [show fftGuardOk 2 = true from rfl, if_pos rfl, show (2:ℤ).toNat = 2 from rfl]
  have hconj : (List.range (2 * 2)).map
      (fun i => if i % 2 = 0 then (([0, 0, 0, 0] : List ℝ).getD i 0)
        else -(([0, 0, 0, 0] : List ℝ).getD i 0)) = [0, 0, 0, 0] := by
    rw [show List.range (2 * 2) = [0, 1, 2, 3] from rfl]
    norm_num [List.getD]
  simp only [hconj]
  rw [show ([0, 0, 0, 0] : List ℝ) ++ List.drop (2 * 2) [0, 0, 0, 0] = [0, 0, 0, 0] from rfl]
  simp only [fft2_zero_eval]
  rw [show List.range (2 * 2) = [0, 1, 2, 3] from rfl]
  norm_num [List.getD]

/-! ## Claim C4 -/

/-- Claim C4 (code bug): at `n = 4` with the input buffer that is 1 at index 2
and 0 elsewhere (complex samples `[0, 1, 0, 0]`), the code outputs
`[0,1,0,1,0,1,0,1]` while the discrete Fourier transform of that input is
`[1,0,0,-1,-1,0,0,1]` — `bit_reverse` permutes raw float slots instead of
complex pairs, so the output is not the DFT. -/
theorem fft_not_dft :
    fft (fun i => if i = 2 then (1:ℝ) else 0) (List.replicate 8 0) 4 = [0, 1, 0, 1, 0, 1, 0, 1] ∧
    dft_spec (fun i => if i = 2 then (1:ℝ) else 0) 4 = [1, 0, 0, -1, -1, 0, 0, 1] ∧
    fft (fun i => if i = 2 then (1:ℝ) else 0) (List.replicate 8 0) 4
      ≠ dft_spec (fun i => if i = 2 then (1:ℝ) else 0) 4 := by
  refine ⟨fft4_eval, dft4_eval, ?_⟩
  rw [fft4_eval, dft4_eval]
  norm_num

/-! ## Claim C5 -/

/-- Claim C5 (code bug): for the complex sequence `x = [0, 1, 0, 0]` (the single
sample `i`, `n = 2`), `ifft(fft(x))` is the zero buffer — `fft` zeroes every
imaginary input slot — so the round trip misses `x` by 1 at index 1, far
beyond the claimed `1e-4` tolerance. -/
theorem ifft_fft_roundtrip_fails :
    ifft (fun i => (fft (fun j => ([0, 1, 0, 0] : List ℝ).getD j 0) [0, 0, 0, 0] 2).getD i 0)
      [0, 0, 0, 0] 2 = [0, 0, 0, 0] ∧
    ¬ (∀ i, i < 4 → |(([0, 0, 0, 0] : List ℝ).getD i 0) - (([0, 1, 0, 0] : List ℝ).getD i 0)|
        ≤ 1 / 10 ^ 4) := by
  constructor
  · simp only [fft2_eval]
    exact ifft2_zero_eval
  · intro h
    have h1 := h 1 (by norm_num)
    norm_num [List.getD] at h1

/-! ## Claim C6 -/

/-- Claim C6 (code bug): `compute_mfcc` performs no check on `num_samples`.
First conjunct: the result is literally independent of the declared sample
count (512 versus 99999), so no InsufficientSamples error can ever be
signalled.  Second and third conjuncts: two audio buffers that agree on the
first 512 samples (one all zero, the other with a spike at index 1000) are
distinguished by the frame-copy stage, which reads `audio[0..1024)`
unconditionally — i.e. the code reads past `numSamples = 512` instead of
failing. -/
theorem compute_mfcc_no_sample_check :
    compute_mfcc (fun i => if i = 1000 then (1:ℝ) else 0) 512 16000 13 26
      = compute_mfcc (fun i => if i = 1000 then (1:ℝ) else 0) 99999 16000 13 26 ∧
    (List.range 512).map (fun _ => (0:ℝ))
      = (List.range 512).map (fun i => if i = 1000 then (1:ℝ) else 0) ∧
    mfccFrame (fun _ => (0:ℝ)) ≠ mfccFrame (fun i => if i = 1000 then (1:ℝ) else 0) := by
  refine ⟨rfl, ?_, ?_⟩
  · apply List.map_congr_left
    intro i hi
    rw [List.mem_range] at hi
    rw [if_neg (by omega)]
  · intro h
    have h1000 : (mfccFrame (fun _ => (0:ℝ))).getD 1000 0
        = (mfccFrame (fun i => if i = 1000 then (1:ℝ) else 0)).getD 1000 0 := by rw [h]
    unfold mfccFrame at h1000
    rw [List.getD, List.getD, List.get?_eq_getElem?, List.get?_eq_getElem?] at h1000
    simp only [List.getElem?_map, List.getElem?_range (show 1000 < 1024 by norm_num)] at h1000
    norm_num at h1000

end FreeHands
